import Mathlib

/-!
Shallow embedding of the beetle-nonzero crate (src/lib.rs, src/ranges.rs,
src/traits.rs) and proofs about its specification claims.

The carrier for the wrapped values is `Nat`.  This models the
arbitrary-precision unsigned domain (`BigUint`) exactly, and it is the
faithful model of the generic `impl<T: Uint>` code paths (which are written
purely in terms of the domain's own `+`, `-`, `*`, `/`, `<` operations).
For the fixed-width primitive instantiations the model agrees with the code
at every input where no overflow occurs; bit-width only matters for
operations on the value zero, which a `NonZero` wrapper is not supposed to
hold.  Rust panics are modelled as `none`.
-/

/-- The struct `NonZero<T>` from src/lib.rs: a single stored field `value`.
The Rust struct carries no type-level invariant; nonzero-ness is a
discipline maintained by the operations, so the Lean structure likewise
allows any `Nat` inside and the invariant is a predicate on values. -/
structure NonZero where
  value : Nat
deriving DecidableEq

/-- `NonZero::new` (src/lib.rs): `if value.is_zero() { None } else { Some(Self { value }) }`. -/
def NonZero.new (value : Nat) : Option NonZero :=
  if value = 0 then none else some ⟨value⟩

/-- Generic `Add::add` (src/lib.rs): `Self { value: self.value + rhs.value }`. -/
def NonZero.add (a b : NonZero) : NonZero :=
  ⟨a.value + b.value⟩

/-- Generic `Sub::sub`, debug branch (src/lib.rs): panics when `self < rhs`
(the derived `PartialOrd` on the one-field struct compares the values),
otherwise returns `Self { value: self.value - rhs.value }`.  The panic is
modelled as `none`. -/
def NonZero.sub (a b : NonZero) : Option NonZero :=
  if a.value < b.value then none else some ⟨a.value - b.value⟩

/-- Generic `Mul::mul` (src/lib.rs): `Self { value: self.value * rhs.value }`. -/
def NonZero.mul (a b : NonZero) : NonZero :=
  ⟨a.value * b.value⟩

/-- Generic `Div::div`, debug branch (src/lib.rs): panics when `self < rhs`,
otherwise returns `Self { value: self.value / rhs.value }`.  The panic is
modelled as `none`. -/
def NonZero.div (a b : NonZero) : Option NonZero :=
  if a.value < b.value then none else some ⟨a.value / b.value⟩

/-- `Shr::shr` (src/lib.rs, `impl_primitive_shl_shr` and the `BigUint`
instance): `Self { value: self.value >> rhs.value }`, with no check on the
result. -/
def NonZero.shr (a b : NonZero) : NonZero :=
  ⟨a.value >>> b.value⟩

/-- Fuel-indexed count of trailing zero bits: the semantics of the
`trailing_zeros` primitive the code calls (`u*::trailing_zeros`,
`BigUint::trailing_zeros().unwrap_or(0)`), for nonzero inputs.  The fuel is
structural so that the definition evaluates by kernel reduction. -/
def tzAux : Nat → Nat → Nat
  | 0, _ => 0
  | fuel + 1, n => if n % 2 = 0 ∧ n ≠ 0 then tzAux fuel (n / 2) + 1 else 0

/-- Trailing-zero count of a natural number (`n` itself is enough fuel). -/
def natTrailingZeros (n : Nat) : Nat :=
  tzAux n n

/-- The `trailing_zeros` method on `NonZero` (src/lib.rs):
`self.value.trailing_zeros()`. -/
def NonZero.trailing_zeros (a : NonZero) : Nat :=
  natTrailingZeros a.value

/-- `WithoutTrailingZeros::without_trailing_zeros` (src/lib.rs):
`Self { value: self.value >> self.value.trailing_zeros() }`. -/
def NonZero.without_trailing_zeros (a : NonZero) : NonZero :=
  ⟨a.value >>> NonZero.trailing_zeros a⟩

/-- Modelled from the spec: the trait method `to_nonzero` used by
`RangeNonZeroUnsigned::from_primitives` is declared in a revision whose
`traits.rs` is not under src/.  Per the spec, `from_raw` "fails (returns
nothing) if either bound is zero", so `to_nonzero` is checked construction,
identical to `NonZero::new`. -/
def to_nonzero (value : Nat) : Option NonZero :=
  if value = 0 then none else some ⟨value⟩

/-- The struct `RangeNonZeroUnsigned<T>` from src/ranges.rs: public `start`
and `stop` bounds plus the private cursor field `value`.
`RangeNonZeroBigUint` in the same file is textually the same algorithm over
`BigUint`; this single model embeds both. -/
structure RangeNonZeroUnsigned where
  start : NonZero
  stop : NonZero
  value : NonZero
deriving DecidableEq

/-- `RangeNonZeroUnsigned::new` (src/ranges.rs): stores both bounds and
initializes the cursor to `start`. -/
def RangeNonZeroUnsigned.new (start stop : NonZero) : RangeNonZeroUnsigned :=
  ⟨start, stop, start⟩

/-- `RangeNonZeroUnsigned::from_primitives` (src/ranges.rs): converts each
raw bound with `to_nonzero` (propagating `None` with `?`), then builds the
range with the cursor at `start`. -/
def RangeNonZeroUnsigned.from_primitives (start stop : Nat) : Option RangeNonZeroUnsigned :=
  (to_nonzero start).bind fun s =>
    (to_nonzero stop).bind fun t => some ⟨s, t, s⟩

/-- `Iterator::next` for `RangeNonZeroUnsigned` (src/ranges.rs): when the
cursor is strictly below `stop`, save the cursor, increment it by one, and
yield the saved (pre-increment) value; otherwise yield nothing and leave the
state untouched.  Rust's `&mut self` is modelled by returning the updated
state alongside the yielded item. -/
def RangeNonZeroUnsigned.next (r : RangeNonZeroUnsigned) :
    Option NonZero × RangeNonZeroUnsigned :=
  if r.value.value < r.stop.value then
    (some r.value, ⟨r.start, r.stop, ⟨r.value.value + 1⟩⟩)
  else
    (none, r)

/-- The state after one call to `next`, discarding the yielded item. -/
def RangeNonZeroUnsigned.advance (r : RangeNonZeroUnsigned) : RangeNonZeroUnsigned :=
  (RangeNonZeroUnsigned.next r).2

/-- Repeatedly call `next`, collecting the wrapped values yielded, for at
most `fuel` steps: the observable emission sequence of the iterator. -/
def RangeNonZeroUnsigned.run : Nat → RangeNonZeroUnsigned → List Nat
  | 0, _ => []
  | fuel + 1, r =>
    match RangeNonZeroUnsigned.next r with
    | (none, _) => []
    | (some v, r2) => v.value :: RangeNonZeroUnsigned.run fuel r2

/-- Modelled from the spec: no `Display` implementation for `NonZero` is
under src/; §6 requires a textual rendering that "MUST print exactly the
decimal representation of the wrapped value with no extra decoration". -/
def NonZero.display (a : NonZero) : String :=
  Nat.repr a.value

/-! ### Helper lemmas -/

theorem tzAux_spec : ∀ fuel n : Nat, n ≠ 0 → n ≤ fuel →
    (n / 2 ^ tzAux fuel n) % 2 = 1 ∧ (n / 2 ^ tzAux fuel n) * 2 ^ tzAux fuel n = n := by
  intro fuel
  induction fuel with
  | zero => intro n h0 hle; omega
  | succ fuel ih =>
    intro n h0 hle
    by_cases hpar : n % 2 = 0
    · have heq : tzAux (fuel + 1) n = tzAux fuel (n / 2) + 1 := by
        simp only [tzAux, if_pos (And.intro hpar h0)]
      have hn2 : n / 2 ≠ 0 := by omega
      have hle2 : n / 2 ≤ fuel := by omega
      obtain ⟨h1, h2⟩ := ih (n / 2) hn2 hle2
      have hdiv : n / 2 ^ (tzAux fuel (n / 2) + 1) = n / 2 / 2 ^ tzAux fuel (n / 2) := by
        rw [Nat.div_div_eq_div_mul, pow_succ, mul_comm]
      rw [heq, hdiv]
      refine ⟨h1, ?_⟩
      rw [pow_succ, ← mul_assoc, h2, Nat.div_mul_cancel (by omega : 2 ∣ n)]
    · have hnc : ¬(n % 2 = 0 ∧ n ≠ 0) := fun hc => hpar hc.1
      have heq : tzAux (fuel + 1) n = 0 := by
        simp only [tzAux, if_neg hnc]
      rw [heq]
      constructor
      · simpa using by omega
      · simp

theorem natTrailingZeros_spec (n : Nat) (h : n ≠ 0) :
    (n / 2 ^ natTrailingZeros n) % 2 = 1 ∧
      (n / 2 ^ natTrailingZeros n) * 2 ^ natTrailingZeros n = n :=
  tzAux_spec n n h (Nat.le_refl n)

theorem RangeNonZeroUnsigned.advance_of_none (r : RangeNonZeroUnsigned)
    (h : (RangeNonZeroUnsigned.next r).1 = none) :
    RangeNonZeroUnsigned.advance r = r := by
  by_cases hc : r.value.value < r.stop.value
  · exfalso
    unfold RangeNonZeroUnsigned.next at h
    rw [if_pos hc] at h
    simp at h
  · unfold RangeNonZeroUnsigned.advance RangeNonZeroUnsigned.next
    rw [if_neg hc]

theorem RangeNonZeroUnsigned.iterate_new_spec (s t : NonZero) (k : Nat) :
    (RangeNonZeroUnsigned.advance^[k] (RangeNonZeroUnsigned.new s t)).start = s ∧
      (RangeNonZeroUnsigned.advance^[k] (RangeNonZeroUnsigned.new s t)).stop = t ∧
      s.value ≤ (RangeNonZeroUnsigned.advance^[k] (RangeNonZeroUnsigned.new s t)).value.value := by
  induction k with
  | zero => exact ⟨rfl, rfl, Nat.le_refl _⟩
  | succ k ih =>
    obtain ⟨h1, h2, h3⟩ := ih
    rw [Function.iterate_succ_apply']
    set r := RangeNonZeroUnsigned.advance^[k] (RangeNonZeroUnsigned.new s t) with hr
    unfold RangeNonZeroUnsigned.advance RangeNonZeroUnsigned.next
    by_cases hc : r.value.value < r.stop.value
    · rw [if_pos hc]
      refine ⟨h1, h2, ?_⟩
      show s.value ≤ r.value.value + 1
      omega
    · rw [if_neg hc]
      exact ⟨h1, h2, h3⟩

/-! ### Claims -/

/-- Claim C1 (code bug): the claim states that no public-API operation
produces or leaves a zero value inside a `NonZero` wrapper without the
operation itself failing.  The unchecked `Shr` implementation violates
this: shifting the wrapper holding 1 right by the wrapper holding 1
succeeds and leaves the value 0 inside the wrapper. -/
theorem C1_shr_evaluation :
    (NonZero.mk 1).value ≠ 0 ∧ (NonZero.shr ⟨1⟩ ⟨1⟩).value = 0 := by
  decide

/-- Claim C2, counterexample: the claim states that the range with
start = 1 and stop = 5 emits exactly [2, 3, 4, 5]; the code emits
[1, 2, 3, 4] (the cursor value is saved and yielded before the increment,
so the first value produced is `start` itself). -/
theorem C2_counterexample :
    RangeNonZeroUnsigned.run 10 (RangeNonZeroUnsigned.new ⟨1⟩ ⟨5⟩) ≠ [2, 3, 4, 5] := by
  decide

/-- Claim C2, amended: the first value produced by the iteration step is
`start` itself, never `start + 1` (the cursor is incremented after the
yielded value is saved); concretely, a range with start = 1 and stop = 5
emits exactly the sequence [1, 2, 3, 4]. -/
theorem C2_amended_first_is_start (s t : NonZero) (h : s.value < t.value) :
    (RangeNonZeroUnsigned.next (RangeNonZeroUnsigned.new s t)).1 = some s ∧
      RangeNonZeroUnsigned.run 10 (RangeNonZeroUnsigned.new ⟨1⟩ ⟨5⟩) = [1, 2, 3, 4] := by
  constructor
  · unfold RangeNonZeroUnsigned.next RangeNonZeroUnsigned.new
    rw [if_pos h]
  · decide

/-- Witness for C2: the amended claim applied at start = 1, stop = 5. -/
theorem C2_witness :
    (NonZero.mk 1).value < (NonZero.mk 5).value ∧
      ((RangeNonZeroUnsigned.next (RangeNonZeroUnsigned.new ⟨1⟩ ⟨5⟩)).1 = some ⟨1⟩ ∧
        RangeNonZeroUnsigned.run 10 (RangeNonZeroUnsigned.new ⟨1⟩ ⟨5⟩) = [1, 2, 3, 4]) :=
  ⟨by decide, C2_amended_first_is_start ⟨1⟩ ⟨5⟩ (by decide)⟩

/-- Claim C3 (code bug): the claim states that `a - b` is a fatal
precondition violation for all nonzero `a ≤ b`.  The debug-mode guard only
fires for `a < b`: at `a = b = 1` the subtraction does not panic and
silently returns a wrapper holding 0.  (The division half of the claim does
hold: `a / b` with `a < b` hits the panic path, here modelled as `none`.) -/
theorem C3_sub_equal_evaluation :
    NonZero.sub ⟨1⟩ ⟨1⟩ = some ⟨0⟩ ∧ NonZero.div ⟨1⟩ ⟨2⟩ = none := by
  decide

/-- Claim C4: `NonZero::new(v)` returns a present result if and only if
`v ≠ 0`, and when present the constructed wrapper stores exactly `v`. -/
theorem C4_new_iff_nonzero (v : Nat) :
    (v ≠ 0 → NonZero.new v = some ⟨v⟩) ∧ (v = 0 → NonZero.new v = none) := by
  constructor
  · intro h
    unfold NonZero.new
    rw [if_neg h]
  · intro h
    unfold NonZero.new
    rw [if_pos h]

/-- Witness for C4: construction at 3 and at 0. -/
theorem C4_witness :
    NonZero.new 3 = some ⟨3⟩ ∧ NonZero.new 0 = none :=
  ⟨(C4_new_iff_nonzero 3).1 (by decide), (C4_new_iff_nonzero 0).2 rfl⟩

/-- Claim C5: for all nonzero `a, b`, the wrapped value of `a + b` is the
sum of the wrapped values and the wrapped value of `a * b` is their
product; and for `a > b`, the subtraction takes the success path (the
failure branch is never reached), its wrapped value is the difference of
the wrapped values, and that difference is itself nonzero. -/
theorem C5_arith_homomorphism (a b : NonZero)
    (ha : a.value ≠ 0) (hb : b.value ≠ 0) :
    (NonZero.add a b).value = a.value + b.value ∧
      (NonZero.mul a b).value = a.value * b.value ∧
      (b.value < a.value →
        NonZero.sub a b = some ⟨a.value - b.value⟩ ∧ a.value - b.value ≠ 0) := by
  refine ⟨rfl, rfl, fun hlt => ⟨?_, by omega⟩⟩
  unfold NonZero.sub
  rw [if_neg (by omega)]

/-- Witness for C5: the theorem applied at a = 3, b = 2. -/
theorem C5_witness :
    (NonZero.mk 3).value ≠ 0 ∧ (NonZero.mk 2).value ≠ 0 ∧
      ((NonZero.add ⟨3⟩ ⟨2⟩).value = (NonZero.mk 3).value + (NonZero.mk 2).value ∧
        (NonZero.mul ⟨3⟩ ⟨2⟩).value = (NonZero.mk 3).value * (NonZero.mk 2).value ∧
        ((NonZero.mk 2).value < (NonZero.mk 3).value →
          NonZero.sub ⟨3⟩ ⟨2⟩ = some ⟨(NonZero.mk 3).value - (NonZero.mk 2).value⟩ ∧
            (NonZero.mk 3).value - (NonZero.mk 2).value ≠ 0)) :=
  ⟨by decide, by decide, C5_arith_homomorphism ⟨3⟩ ⟨2⟩ (by decide) (by decide)⟩

/-- Claim C6: `without_trailing_zeros` returns the value right-shifted by
its own trailing-zero count; the result is odd and nonzero, and
reassembling it with the stripped power of two recovers the value (so it is
the largest odd factor); in particular 166 maps to 83 and 128 maps to 1. -/
theorem C6_without_trailing_zeros (a : NonZero) (h : a.value ≠ 0) :
    NonZero.without_trailing_zeros a = ⟨a.value >>> natTrailingZeros a.value⟩ ∧
      (NonZero.without_trailing_zeros a).value % 2 = 1 ∧
      (NonZero.without_trailing_zeros a).value * 2 ^ natTrailingZeros a.value = a.value ∧
      (NonZero.without_trailing_zeros a).value ≠ 0 ∧
      NonZero.without_trailing_zeros ⟨166⟩ = ⟨83⟩ ∧
      NonZero.without_trailing_zeros ⟨128⟩ = ⟨1⟩ := by
  obtain ⟨h1, h2⟩ := natTrailingZeros_spec a.value h
  have hv : (NonZero.without_trailing_zeros a).value = a.value / 2 ^ natTrailingZeros a.value := by
    show a.value >>> natTrailingZeros a.value = _
    exact Nat.shiftRight_eq_div_pow a.value (natTrailingZeros a.value)
  refine ⟨rfl, ?_, ?_, ?_, by decide, by decide⟩
  · rw [hv]; exact h1
  · rw [hv]; exact h2
  · rw [hv]
    intro hz
    rw [hz, Nat.zero_mul] at h2
    exact h (h2.symm)

/-- Witness for C6: the theorem applied at wrapped value 166. -/
theorem C6_witness :
    (NonZero.mk 166).value ≠ 0 ∧
      (NonZero.without_trailing_zeros ⟨166⟩ =
          ⟨(NonZero.mk 166).value >>> natTrailingZeros (NonZero.mk 166).value⟩ ∧
        (NonZero.without_trailing_zeros ⟨166⟩).value % 2 = 1 ∧
        (NonZero.without_trailing_zeros ⟨166⟩).value *
            2 ^ natTrailingZeros (NonZero.mk 166).value = (NonZero.mk 166).value ∧
        (NonZero.without_trailing_zeros ⟨166⟩).value ≠ 0 ∧
        NonZero.without_trailing_zeros ⟨166⟩ = ⟨83⟩ ∧
        NonZero.without_trailing_zeros ⟨128⟩ = ⟨1⟩) :=
  ⟨by decide, C6_without_trailing_zeros ⟨166⟩ (by decide)⟩

/-- Claim C7: constructing a range from raw bounds is present if and only
if both bounds are nonzero; concretely (1, 10) succeeds and (0, 10) fails. -/
theorem C7_from_primitives_iff (start stop : Nat) :
    ((RangeNonZeroUnsigned.from_primitives start stop).isSome = true ↔
        (start ≠ 0 ∧ stop ≠ 0)) ∧
      (RangeNonZeroUnsigned.from_primitives 1 10).isSome = true ∧
      RangeNonZeroUnsigned.from_primitives 0 10 = none := by
  refine ⟨?_, by decide, by decide⟩
  unfold RangeNonZeroUnsigned.from_primitives to_nonzero
  by_cases hs : start = 0
  · simp [hs]
  · by_cases ht : stop = 0
    · simp [hs, ht]
    · simp [hs, ht]

/-- Claim C8: exhaustion is a sticky terminal state: once `next` yields
nothing, the state is left unchanged and every subsequent call (any number
of steps later) also yields nothing. -/
theorem C8_exhaustion_sticky (r : RangeNonZeroUnsigned) (k : Nat)
    (h : (RangeNonZeroUnsigned.next r).1 = none) :
    RangeNonZeroUnsigned.advance^[k] r = r ∧
      (RangeNonZeroUnsigned.next (RangeNonZeroUnsigned.advance^[k] r)).1 = none := by
  have hfix : RangeNonZeroUnsigned.advance^[k] r = r :=
    Function.iterate_fixed (RangeNonZeroUnsigned.advance_of_none r h) k
  exact ⟨hfix, by rw [hfix]; exact h⟩

/-- Witness for C8: an already-exhausted range (start 5, stop 1) after 3
further steps. -/
theorem C8_witness :
    RangeNonZeroUnsigned.advance^[3] (RangeNonZeroUnsigned.new ⟨5⟩ ⟨1⟩) =
        RangeNonZeroUnsigned.new ⟨5⟩ ⟨1⟩ ∧
      (RangeNonZeroUnsigned.next
          (RangeNonZeroUnsigned.advance^[3] (RangeNonZeroUnsigned.new ⟨5⟩ ⟨1⟩))).1 = none :=
  C8_exhaustion_sticky (RangeNonZeroUnsigned.new ⟨5⟩ ⟨1⟩) 3 (by decide)

/-- Claim C9: the textual rendering of a `NonZero` value is exactly the
decimal representation of the wrapped value with no extra decoration; a
wrapper holding 42 renders as "42". -/
theorem C9_display_decimal (a : NonZero) (h : a.value = 42) :
    NonZero.display a = Nat.repr a.value ∧ NonZero.display a = "42" := by
  constructor
  · rfl
  · unfold NonZero.display
    rw [h]
    rfl

/-- Witness for C9: the rendering of the wrapper holding 42. -/
theorem C9_witness :
    (NonZero.mk 42).value = 42 ∧
      (NonZero.display ⟨42⟩ = Nat.repr (NonZero.mk 42).value ∧
        NonZero.display ⟨42⟩ = "42") :=
  ⟨rfl, C9_display_decimal ⟨42⟩ rfl⟩

/-- Claim C10: whenever the iteration step of a range built from bounds
`s`, `t` yields a value `v` (after any number `k` of prior steps), then
`s ≤ v < t` holds on the wrapped values — in particular the stop bound is
never emitted — and the cursor after the step is exactly `v + 1`. -/
theorem C10_bounds_and_step (s t v : NonZero) (k : Nat)
    (h : (RangeNonZeroUnsigned.next
        (RangeNonZeroUnsigned.advance^[k] (RangeNonZeroUnsigned.new s t))).1 = some v) :
    s.value ≤ v.value ∧ v.value < t.value ∧
      ((RangeNonZeroUnsigned.next
          (RangeNonZeroUnsigned.advance^[k] (RangeNonZeroUnsigned.new s t))).2).value.value =
        v.value + 1 := by
  obtain ⟨h1, h2, h3⟩ := RangeNonZeroUnsigned.iterate_new_spec s t k
  set r := RangeNonZeroUnsigned.advance^[k] (RangeNonZeroUnsigned.new s t) with hr
  unfold RangeNonZeroUnsigned.next at h ⊢
  by_cases hc : r.value.value < r.stop.value
  · rw [if_pos hc] at h ⊢
    have hv : r.value = v := by simpa using h
    rw [← hv]
    refine ⟨h3, ?_, rfl⟩
    rw [← h2]
    exact hc
  · rw [if_neg hc] at h
    simp at h

/-- Witness for C10: the first step of the range from 1 to 5 yields 1. -/
theorem C10_witness :
    (RangeNonZeroUnsigned.next
        (RangeNonZeroUnsigned.advance^[0] (RangeNonZeroUnsigned.new ⟨1⟩ ⟨5⟩))).1 = some ⟨1⟩ ∧
      ((NonZero.mk 1).value ≤ (NonZero.mk 1).value ∧
        (NonZero.mk 1).value < (NonZero.mk 5).value ∧
        ((RangeNonZeroUnsigned.next
            (RangeNonZeroUnsigned.advance^[0] (RangeNonZeroUnsigned.new ⟨1⟩ ⟨5⟩))).2).value.value =
          (NonZero.mk 1).value + 1) :=
  ⟨by decide, C10_bounds_and_step ⟨1⟩ ⟨5⟩ ⟨1⟩ 0 (by decide)⟩
